import Mathlib

/-!
Verification of the retrieval-and-ranking pipeline of the
tour-guide backend (app/rag.py, app/embed_faiss.py, app/query.py).

Python strings are modelled as lists of characters, Python dicts with
string keys as association lists in insertion order, and the external
embedding / text-generation services as explicit function parameters.
-/

namespace TourGuide

/-- Python strings, modelled as lists of characters. -/
abbrev Str := List Char

/-- Python str.lower, character by character (ASCII data throughout). -/
def lowerStr (s : Str) : Str := s.map Char.toLower

/-- The apostrophe character U+0027, used in the landmark name of
Coxs Bazar as it is spelled in the source keyword table. -/
def apoc : Char := Char.ofNat 39

/-- Python substring containment, the expression pat in s. -/
def occurs (pat : Str) : Str → Bool
  | [] => pat.isEmpty
  | c :: rest => pat.isPrefixOf (c :: rest) || occurs pat rest

/-- A JSON-ish value stored in a place record. -/
inductive Val where
  | vstr : Str → Val
  | vnum : Nat → Val
  | vnull : Val
deriving DecidableEq

/-- A Python dict with string keys, kept in insertion order. -/
abbrev PDict := List (Str × Val)

/-- Python d.get(k): the value at the first matching key, if any. -/
def dictGet (d : PDict) (k : Str) : Option Val :=
  (d.find? (fun kv => kv.1 = k)).map Prod.snd

/-- Python d[k] = v: update the value in place if the key exists,
otherwise append the new binding at the end. -/
def dictSet (d : PDict) (k : Str) (v : Val) : PDict :=
  if d.any (fun kv => kv.1 = k) then
    d.map (fun kv => if kv.1 = k then (k, v) else kv)
  else d ++ [(k, v)]

/-- Python d.pop(k, None): remove the binding for k, if present. -/
def dictPop (d : PDict) (k : Str) : PDict :=
  d.filter (fun kv => !(kv.1 = k : Bool))

/-- Python truthiness of an optional value (absent, None, the empty
string and 0 are falsy). -/
def truthy : Option Val → Bool
  | some (.vstr s) => !s.isEmpty
  | some (.vnum n) => n != 0
  | some .vnull => false
  | none => false

/-- The string content of an optional value, empty when absent or not
a string: the pattern place.get(k, two-quote empty) on string fields. -/
def strOrEmpty : Option Val → Str
  | some (.vstr s) => s
  | _ => []

/-- The lower-cased string field access pattern of the scorer:
(place.get(k) or empty).lower(). -/
def strFieldLower (d : PDict) (k : Str) : Str :=
  lowerStr (strOrEmpty (dictGet d k))

def nameKey : Str := "name".data
def divisionKey : Str := "division".data
def descriptionKey : Str := "description".data
def urlKey : Str := "url".data
def imageKey : Str := "image".data
def relevanceKey : Str := "_relevance_score".data

/-- The intent dict produced by extract_location_info. -/
structure LocationInfo where
  location : Str
  type : Str
  count : Nat
  search_keywords : List Str
deriving DecidableEq

/-- The divisions keyword table of extract_location_info, in source
declaration order. -/
def divisions : List (Str × List Str) := [
  ("dhaka".data, ["dhaka".data]),
  ("chittagong".data, ["chittagong".data, "chattogram".data, "ctg".data]),
  ("khulna".data, ["khulna".data]),
  ("sylhet".data, ["sylhet".data]),
  ("barisal".data, ["barisal".data, "barishal".data]),
  ("rajshahi".data, ["rajshahi".data]),
  ("rangpur".data, ["rangpur".data]),
  ("mymensingh".data, ["mymensingh".data])]

/-- The landmark name spelled cox-apostrophe-s-space-bazar. -/
def coxName : Str := "cox".data ++ [apoc] ++ "s bazar".data

/-- The specific_places keyword table of extract_location_info, in
source declaration order. -/
def specific_places : List (Str × List Str) := [
  ("rangamati".data, ["rangamati".data]),
  (coxName, ["cox".data, "coxs bazar".data, coxName, "coxsbazar".data]),
  ("sundarbans".data, ["sundarban".data, "sundarbans".data]),
  ("bandarban".data, ["bandarban".data]),
  ("sajek".data, ["sajek".data]),
  ("saint martin".data, ["saint martin".data, "st martin".data]),
  ("kuakata".data, ["kuakata".data]),
  ("ratargul".data, ["ratargul".data]),
  ("srimangal".data, ["srimangal".data, "sreemangal".data]),
  ("paharpur".data, ["paharpur".data]),
  ("mahasthangarh".data, ["mahasthangarh".data]),
  ("jaflong".data, ["jaflong".data]),
  ("tanguar haor".data, ["tanguar".data, "tanguar haor".data])]

/-- Decimal rendering of a natural number, as a Python f-string does. -/
def natStr (n : Nat) : Str := (Nat.repr n).data

/-- One iteration of the count-extraction loop: does the query contain
top N, N spot or N place for this N. -/
def countMatch (n : Nat) (ql : Str) : Bool :=
  occurs ("top ".data ++ natStr n) ql || occurs (natStr n ++ " spot".data) ql ||
    occurs (natStr n ++ " place".data) ql

/-- The count-extraction loop of extract_location_info: scan N from 1
to 50 in increasing order, keep the first N whose phrase occurs in the
lower-cased query, default 10. -/
def extractCount (ql : Str) : Nat :=
  match (List.range' 1 50).find? (fun n => countMatch n ql) with
  | some n => n
  | none => 10

/-- The nested for-loops over a keyword table: return the first entry
one of whose keyword variants occurs in the lower-cased query. -/
def findTableMatch (table : List (Str × List Str)) (ql : Str) : Option (Str × List Str) :=
  table.find? (fun e => e.2.any (fun kw => occurs kw ql))

/-- The country-level keywords of extract_location_info. -/
def generalWords : List Str := ["bangladesh".data, "bd".data, "country".data, "nation".data]

/-- app/rag.py extract_location_info: lower-case the query, extract a
count, then try landmarks, divisions and country-level words in that
order, falling back to an unknown intent carrying the raw query. -/
def extract_location_info (query : Str) : LocationInfo :=
  let ql := lowerStr query
  let count := extractCount ql
  match findTableMatch specific_places ql with
  | some e => ⟨e.1, "specific".data, count, e.1 :: e.2⟩
  | none =>
    match findTableMatch divisions ql with
    | some e => ⟨e.1, "division".data, count, e.2⟩
    | none =>
      if generalWords.any (fun w => occurs w ql) then
        ⟨"bangladesh".data, "general".data, count, ["bangladesh".data]⟩
      else ⟨query, "unknown".data, count, [query]⟩

/-- The famous_keywords list of the general branch of
calculate_relevance_score. -/
def famous_keywords : List Str := ["cox".data, "sundarban".data, "saint martin".data,
  "rangamati".data, "bandarban".data, "sajek".data, "kuakata".data, "paharpur".data,
  "ratargul".data, "srimangal".data]

/-- One iteration of the specific-intent keyword loop of
calculate_relevance_score. -/
def specificKeywordScore (pname pdesc purl pdiv : Str) (score : Nat) (kw : Str) : Nat :=
  let k := lowerStr kw
  let s1 := if k = pname then score + 50 else if occurs k pname then score + 30 else score
  let s2 := if occurs k pdesc then s1 + 15 else s1
  let s3 := if occurs k purl then s2 + 10 else s2
  if occurs k pdiv then s3 + 5 else s3

/-- One iteration of the division-intent keyword loop of
calculate_relevance_score. -/
def divisionKeywordScore (pname pdesc purl pdiv : Str) (score : Nat) (kw : Str) : Nat :=
  let k := lowerStr kw
  let s1 := if k = pdiv then score + 40 else if occurs k pdiv then score + 25 else score
  let s2 := if occurs k pdesc then s1 + 15 else s1
  let s3 := if occurs k purl then s2 + 10 else s2
  if occurs k pname then s3 + 5 else s3

/-- app/rag.py calculate_relevance_score: additive keyword scoring per
intent type; the general branch admits only famous spots (first
matching famous keyword only) and returns 0 for everything else; any
other intent type falls through to the initial score 0. -/
def calculate_relevance_score (place : PDict) (info : LocationInfo) : Nat :=
  let place_name := strFieldLower place nameKey
  let place_division := strFieldLower place divisionKey
  let place_desc := strFieldLower place descriptionKey
  let place_url := strFieldLower place urlKey
  if info.type = "specific".data then
    info.search_keywords.foldl (specificKeywordScore place_name place_desc place_url place_division) 0
  else if info.type = "division".data then
    info.search_keywords.foldl (divisionKeywordScore place_name place_desc place_url place_division) 0
  else if info.type = "general".data then
    match famous_keywords.find? (fun kw => occurs kw place_name || occurs kw place_desc) with
    | none => 0
    | some _ =>
      30 + (if truthy (dictGet place descriptionKey) &&
              decide (50 < (strOrEmpty (dictGet place descriptionKey)).length) then 5 else 0)
         + (if truthy (dictGet place imageKey) then 5 else 0)
  else 0

/-- Stable insertion into a score-sorted list: the new element goes in
front of the first element whose score it reaches, hence in front of
equal scores coming from later input positions. -/
def insertByScore {α : Type} (x : α × Nat) : List (α × Nat) → List (α × Nat)
  | [] => [x]
  | y :: ys => if y.2 ≤ x.2 then x :: y :: ys else y :: insertByScore x ys

/-- Stable sort by score, descending: the behaviour of the Python
stable list.sort with reverse order on the transient score key. -/
def sortByScore {α : Type} : List (α × Nat) → List (α × Nat)
  | [] => []
  | x :: xs => insertByScore x (sortByScore xs)

/-- app/rag.py filter_and_rank_places: score every place, keep copies
of those scoring strictly more than 5 with the transient score key
set, sort those copies by score descending (stable), then pop the
transient key off every returned copy. -/
def filter_and_rank_places (places : List PDict) (info : LocationInfo) : List PDict :=
  let scored_places := places.filterMap (fun place =>
    let score := calculate_relevance_score place info
    if 5 < score then some (dictSet place relevanceKey (.vnum score), score) else none)
  (sortByScore scored_places).map (fun x => dictPop x.1 relevanceKey)

/-- The retained places paired with their original positions: the
specification-side view of the filtering step. -/
def keptWithIdx (places : List PDict) (info : LocationInfo) : List (Nat × PDict) :=
  places.enum.filter (fun e => decide (5 < calculate_relevance_score e.2 info))

/-- Insertion for the specification-side order: strictly higher score
first, ties by smaller original position. -/
def insertRanked (info : LocationInfo) (x : Nat × PDict) : List (Nat × PDict) → List (Nat × PDict)
  | [] => [x]
  | y :: ys =>
    if calculate_relevance_score y.2 info < calculate_relevance_score x.2 info ∨
        (calculate_relevance_score y.2 info = calculate_relevance_score x.2 info ∧ x.1 < y.1) then
      x :: y :: ys
    else y :: insertRanked info x ys

/-- Sort by the specification-side order. -/
def sortRanked (info : LocationInfo) : List (Nat × PDict) → List (Nat × PDict)
  | [] => []
  | x :: xs => insertRanked info x (sortRanked info xs)

/-- Modelled from the specification wording of the rank-filter
operation: keep exactly the places scoring strictly more than 5, order
them by score descending with ties broken by original position, and
remove the transient score key from every returned record. -/
def rankSpec (places : List PDict) (info : LocationInfo) : List PDict :=
  (sortRanked info (keptWithIdx places info)).map (fun e => dictPop e.2 relevanceKey)

/-! ### The vector-index build phase, app/embed_faiss.py -/

/-- The opaque failure of the external embedding service. -/
inductive EmbErr where
  | serviceError : EmbErr
deriving DecidableEq

/-- An embedding vector, opaque to the build logic. -/
abbrev Vec := List Int

/-- The text embedded for a place, the f-string name colon space
description of create_embeddings. -/
def placeText (p : PDict) : Str :=
  strOrEmpty (dictGet p nameKey) ++ ": ".data ++ strOrEmpty (dictGet p descriptionKey)

/-- The texts list of create_embeddings: one text per place whose
description field is truthy, in place order. -/
def embedTexts (places : List PDict) : List Str :=
  (places.filter (fun p => truthy (dictGet p descriptionKey))).map placeText

/-- The batching loop of create_embeddings: texts in chunks of 10, as
the slices texts i to i+10 for i in range 0, len, 10; the extra fuel
argument (always at least the list length) makes the recursion
structural. -/
def batches10Fuel : Nat → List Str → List (List Str)
  | 0, _ => []
  | _, [] => []
  | fuel + 1, t :: ts => ((t :: ts).take 10) :: batches10Fuel fuel (ts.drop 9)

/-- The batching loop of create_embeddings at its natural fuel. -/
def batches10 (texts : List Str) : List (List Str) :=
  batches10Fuel texts.length texts

/-- The sequential embedding loop: call the external service on every
batch in order, stopping at the first error, concatenating the
per-batch vectors on success. -/
def embedAll (embed : List Str → Except EmbErr (List Vec)) :
    List (List Str) → Except EmbErr (List Vec)
  | [] => .ok []
  | b :: bs =>
    match embed b with
    | .error e => .error e
    | .ok vs =>
      match embedAll embed bs with
      | .error e => .error e
      | .ok rest => .ok (vs ++ rest)

/-- A file written by the build step: the FAISS index file holding the
accumulated vectors, or the place-mapping JSON file holding a list of
place records. -/
inductive FileWrite where
  | indexFile : List Vec → FileWrite
  | mappingFile : List PDict → FileWrite
deriving DecidableEq

/-- app/embed_faiss.py create_embeddings, with the external embedding
call passed in: embed the texts of all places having a truthy
description in batches of 10; an error in any batch aborts the run
before anything is written; on success write the index file with the
vectors and then the mapping file with the FULL place list. -/
def create_embeddings (places : List PDict)
    (embed : List Str → Except EmbErr (List Vec)) :
    Except EmbErr Unit × List FileWrite :=
  match embedAll embed (batches10 (embedTexts places)) with
  | .error e => (.error e, [])
  | .ok embs => (.ok (), [.indexFile embs, .mappingFile places])

/-! ### The response composer, app/rag.py generate_friendly_response -/

/-- Python str.title on a string: the first character of every
alphabetic run is upper-cased, the rest of the run lower-cased. -/
def titleAux : Bool → Str → Str
  | _, [] => []
  | prevAlpha, c :: rest =>
    (if c.isAlpha then (if prevAlpha then c.toLower else c.toUpper) else c) ::
      titleAux c.isAlpha rest

/-- Python str.title. -/
def titleStr (s : Str) : Str := titleAux false s

/-- The description truncation of generate_friendly_response: keep the
first 200 characters and append an ellipsis when longer than 200,
otherwise keep the description as is. -/
def truncDesc (d : Str) : Str :=
  if 200 < d.length then d.take 200 ++ "...".data else d

/-- One iteration of the spots-context loop of
generate_friendly_response, for the 1-based position idx. -/
def renderSpot (idx : Nat) (spot : PDict) : Str :=
  "\n".data ++ natStr idx ++ ". **".data ++ strOrEmpty (dictGet spot nameKey) ++ "**".data
    ++ (if truthy (dictGet spot divisionKey) then
          " (".data ++ strOrEmpty (dictGet spot divisionKey) ++ ")".data else [])
    ++ (if truthy (dictGet spot descriptionKey) then
          "\n   ".data ++ truncDesc (strOrEmpty (dictGet spot descriptionKey)) else [])
    ++ "\n".data

/-- The spots-context string: the loop enumerate spots take 10 from 1. -/
def spotsContext (spots : List PDict) : Str :=
  ((List.enumFrom 1 (spots.take 10)).map (fun e => renderSpot e.1 e.2)).flatten

/-- The persona prompt template of generate_friendly_response. -/
def friendlyPrompt (query locationName context : Str) : Str :=
  "You are \"Rahim\", a friendly and enthusiastic Bangladeshi tour guide...\nUser asked: \"".data
    ++ query ++ "\"\nTourist spots in/around ".data ++ locationName ++ ":".data
    ++ context ++ "\nWrite a warm, conversational response (3-4 short paragraphs)...\n".data

/-- app/rag.py generate_friendly_response, with the external
text-generation call passed in: build the bounded context and the
persona prompt, call the generator, and return its text unchanged. -/
def generate_friendly_response (query : Str) (spots : List PDict) (info : LocationInfo)
    (generate : Str → Str) : Str :=
  generate (friendlyPrompt query (titleStr info.location) (spotsContext spots))

/-- Python str.strip with no argument: remove leading and trailing
whitespace. -/
def pyStrip (s : Str) : Str :=
  ((s.dropWhile Char.isWhitespace).reverse.dropWhile Char.isWhitespace).reverse

/-! ### A heap model of filter_and_rank_places for the frame claim

Python dicts are mutable objects; to state that the function does not
mutate its input, places are modelled as cells of a heap (a list of
dicts addressed by position), the input as a list of addresses, the
copy as an allocation at the end of the heap, and the two mutations
(setting the transient score key on the copy and popping it again) as
updates of the addressed cell. -/

/-- Address lookup in the heap. -/
def heapGet (h : List PDict) (i : Nat) : PDict := h.getD i []

/-- The first loop of filter_and_rank_places over the heap: score the
record at each input address; when the score exceeds 5, allocate a
copy with the transient key set and record its fresh address with the
score. -/
def rankScorePhase (info : LocationInfo) :
    List Nat → List PDict → List (Nat × Nat) → List PDict × List (Nat × Nat)
  | [], h, acc => (h, acc)
  | i :: rest, h, acc =>
    let place := heapGet h i
    let score := calculate_relevance_score place info
    if 5 < score then
      rankScorePhase info rest (h ++ [dictSet place relevanceKey (.vnum score)])
        (acc ++ [(h.length, score)])
    else rankScorePhase info rest h acc

/-- The final loop of filter_and_rank_places over the heap: pop the
transient key off the record at every retained address, in ranked
order. -/
def rankStripPhase : List (Nat × Nat) → List PDict → List PDict
  | [], h => h
  | (i, _) :: rest, h => rankStripPhase rest (h.set i (dictPop (heapGet h i) relevanceKey))

/-- app/rag.py filter_and_rank_places over the heap model: returns the
final heap and the addresses of the ranked copies, in rank order. -/
def filter_and_rank_places_heap (h : List PDict) (ids : List Nat) (info : LocationInfo) :
    List PDict × List Nat :=
  let p1 := rankScorePhase info ids h []
  let sorted := sortByScore p1.2
  (rankStripPhase sorted p1.1, sorted.map Prod.fst)

/-! ### Sample data used by counterexamples and witnesses -/

/-- The query Cox-apostrophe-s Bazar, in its original casing. -/
def coxQuery : Str := "Cox".data ++ [apoc] ++ "s Bazar".data

/-- The intent extracted from the query coxQuery. -/
def coxIntent : LocationInfo := extract_location_info coxQuery

/-- A general-type intent as produced for country-level queries. -/
def genInfo : LocationInfo := ⟨"bangladesh".data, "general".data, 10, ["bangladesh".data]⟩

/-- An unknown-type intent as produced for an unmatched query. -/
def unknownInfo : LocationInfo :=
  ⟨"best food nearby".data, "unknown".data, 10, ["best food nearby".data]⟩

/-- A division-type intent for sylhet. -/
def sylhetInfo : LocationInfo := ⟨"sylhet".data, "division".data, 10, ["sylhet".data]⟩

/-- A detailed, imaged place matching no famous keyword. -/
def pondPlace : PDict := [(nameKey, Val.vstr "Unnamed Village Pond".data),
  (descriptionKey, Val.vstr
    "A very quiet and long description of a pond that nobody knows, with many words indeed".data),
  (imageKey, Val.vstr "http://img".data)]

/-- A detailed, imaged place matching the famous keyword sajek. -/
def sajekPlace : PDict := [(nameKey, Val.vstr "Sajek Valley".data),
  (descriptionKey, Val.vstr
    "A very quiet and long description of sajek valley that everybody knows, many words".data),
  (imageKey, Val.vstr "http://img".data)]

/-- A place with no description field. -/
def alphaPlace : PDict := [(nameKey, Val.vstr "alpha".data)]

/-- A place with a non-empty description. -/
def betaPlace : PDict := [(nameKey, Val.vstr "beta".data),
  (descriptionKey, Val.vstr "nice beach".data)]

/-- A place in division Sylhet. -/
def sylPlaceA : PDict := [(nameKey, Val.vstr "A".data), (divisionKey, Val.vstr "Sylhet".data)]

/-- A place merely mentioning sylhet in its description. -/
def sylPlaceC : PDict := [(nameKey, Val.vstr "C".data),
  (descriptionKey, Val.vstr "in sylhet region".data)]

/-- A place whose name is exactly Cox-apostrophe-s Bazar and nothing
else. -/
def coxTitlePlace : PDict := [(nameKey, Val.vstr coxQuery)]

/-- A place that merely mentions the landmark in its description. -/
def coxMentionPlace : PDict := [(nameKey, Val.vstr "Dhaka Gate".data),
  (descriptionKey, Val.vstr ("visit cox".data ++ [apoc] ++ "s bazar today".data))]

/-- Per-keyword lower bound on the name points collected by an
exactly-named cox place, used in the C4 analysis. -/
def coxLb (kw : Str) : Nat := if kw = coxName then 50 else if kw = "cox".data then 30 else 0

/-- The constant per-keyword bound of 15 description points. -/
def fifteen (_kw : Str) : Nat := 15

/-- An embedding stand-in that succeeds on every batch. -/
def okEmbed : List Str → Except EmbErr (List Vec) := fun b => .ok (b.map (fun _ => [0]))

/-- An embedding stand-in that fails on every batch. -/
def badEmbed : List Str → Except EmbErr (List Vec) := fun _ => .error .serviceError

/-! ### Helper lemmas -/

theorem isPrefixOf_self (l : Str) : l.isPrefixOf l = true := by
  induction l with
  | nil => rfl
  | cons c r ih => simp [List.isPrefixOf, ih]

theorem occurs_self (s : Str) : occurs s s = true := by
  cases s with
  | nil => rfl
  | cons c r => simp [occurs, isPrefixOf_self]

/-- The first matching N of the count loop is the least matching N in
the scanned range. -/
theorem find?_range'_eq_some {p : Nat → Bool} :
    ∀ (len start n : Nat), (List.range' start len).find? p = some n →
      p n = true ∧ start ≤ n ∧ n < start + len ∧ ∀ m, start ≤ m → m < n → p m = false := by
  intro len
  induction len with
  | zero => intro start n h; simp [List.range'] at h
  | succ k ih =>
    intro start n h
    rw [List.range'] at h
    by_cases hps : p start = true
    · rw [List.find?_cons_of_pos _ hps] at h
      obtain rfl : start = n := by injection h
      exact ⟨hps, Nat.le_refl _, by omega, fun m h1 h2 => absurd (Nat.lt_of_lt_of_le h2 h1) (by omega)⟩
    · rw [List.find?_cons_of_neg _ hps] at h
      obtain ⟨hp, h1, h2, hmin⟩ := ih (start + 1) n h
      refine ⟨hp, by omega, by omega, fun m hm1 hm2 => ?_⟩
      by_cases hms : m = start
      · subst hms; exact Bool.eq_false_iff.mpr hps
      · exact hmin m (by omega) hm2

/-- The count field of the extracted intent is always the result of
the count-extraction loop on the lower-cased query. -/
theorem count_extract (q : Str) :
    (extract_location_info q).count = extractCount (lowerStr q) := by
  simp only [extract_location_info]
  (repeat' split) <;> rfl

/-- Whichever branch produces the intent, the type of an extracted
intent is one of the four type tags. -/
theorem calculate_relevance_score_unknown (info : LocationInfo) (p : PDict)
    (h : info.type = "unknown".data) : calculate_relevance_score p info = 0 := by
  have h1 : ¬ (("unknown".data : Str) = "specific".data) := by decide
  have h2 : ¬ (("unknown".data : Str) = "division".data) := by decide
  have h3 : ¬ (("unknown".data : Str) = "general".data) := by decide
  simp [calculate_relevance_score, h, h1, h2, h3]

/-! ### Claims -/

/-- C3, counterexample: the query top 15 places in sylhet contains the
phrase top 15, yet the extracted count is 1, because the count loop
scans N in increasing order and top 1 is a substring of top 15. -/
theorem claim_C3_counterexample :
    (extract_location_info "top 15 places in sylhet".data).count = 1 ∧ (1 : Nat) ≠ 15 := by
  constructor
  · decide
  · decide

/-- C3, amended: the count loop scans N from 1 to 50 in increasing
order and the SMALLEST matching N wins (so a query containing top 15
yields count 1 via the substring top 1); the count defaults to 10 when
no pattern matches, and is always an integer at least 1. -/
theorem claim_C3_amended (q : Str) :
    (extract_location_info q).count = extractCount (lowerStr q)
    ∧ 1 ≤ extractCount (lowerStr q)
    ∧ ((extractCount (lowerStr q) = 10
          ∧ ∀ n, 1 ≤ n → n ≤ 50 → countMatch n (lowerStr q) = false)
       ∨ (extractCount (lowerStr q) ≤ 50
          ∧ countMatch (extractCount (lowerStr q)) (lowerStr q) = true
          ∧ ∀ m, 1 ≤ m → m < extractCount (lowerStr q) → countMatch m (lowerStr q) = false)) := by
  have hc := count_extract q
  cases h : (List.range' 1 50).find? (fun n => countMatch n (lowerStr q)) with
  | none =>
    have he : extractCount (lowerStr q) = 10 := by unfold extractCount; rw [h]
    refine ⟨hc, by rw [he]; omega, Or.inl ⟨he, fun n h1 h2 => ?_⟩⟩
    have := List.find?_eq_none.mp h n (by rw [List.mem_range'_1]; omega)
    simpa using this
  | some n =>
    have he : extractCount (lowerStr q) = n := by unfold extractCount; rw [h]
    obtain ⟨hp, h1, h2, hmin⟩ := find?_range'_eq_some 50 1 n h
    refine ⟨hc, by rw [he]; omega, Or.inr ⟨by rw [he]; omega, by rw [he]; exact hp,
      fun m hm1 hm2 => hmin m hm1 (by rw [he] at hm2; exact hm2)⟩⟩

/-- C3, amended, witness: instantiated at the query top 15 places in
sylhet. -/
theorem claim_C3_amended_witness :
    (extract_location_info "top 15 places in sylhet".data).count
        = extractCount (lowerStr "top 15 places in sylhet".data)
    ∧ 1 ≤ extractCount (lowerStr "top 15 places in sylhet".data)
    ∧ ((extractCount (lowerStr "top 15 places in sylhet".data) = 10
          ∧ ∀ n, 1 ≤ n → n ≤ 50 →
              countMatch n (lowerStr "top 15 places in sylhet".data) = false)
       ∨ (extractCount (lowerStr "top 15 places in sylhet".data) ≤ 50
          ∧ countMatch (extractCount (lowerStr "top 15 places in sylhet".data))
              (lowerStr "top 15 places in sylhet".data) = true
          ∧ ∀ m, 1 ≤ m → m < extractCount (lowerStr "top 15 places in sylhet".data) →
              countMatch m (lowerStr "top 15 places in sylhet".data) = false)) :=
  claim_C3_amended "top 15 places in sylhet".data

/-- C5: any query containing a landmark keyword (matching is done on
the lower-cased query, hence casing-insensitive) yields a specific
intent whose location is a landmark with a matching keyword; when the
matched landmark is unique it IS that landmark, and in particular the
landmark wins even when a division keyword is also present, since no
assumption excludes division matches. -/
theorem claim_C5 (q L : Str) (kws : List Str) (kw : Str)
    (hL : (L, kws) ∈ specific_places) (hkw : kw ∈ kws)
    (hocc : occurs kw (lowerStr q) = true) :
    (extract_location_info q).type = "specific".data
    ∧ (∃ e ∈ specific_places, (extract_location_info q).location = e.1
        ∧ ∃ kw2 ∈ e.2, occurs kw2 (lowerStr q) = true)
    ∧ ((∀ e ∈ specific_places, ∀ kw2 ∈ e.2, occurs kw2 (lowerStr q) = true → e.1 = L) →
        (extract_location_info q).location = L) := by
  have hmatch : ∃ e ∈ specific_places, (e.2.any (fun kw2 => occurs kw2 (lowerStr q))) = true :=
    ⟨(L, kws), hL, List.any_eq_true.mpr ⟨kw, hkw, hocc⟩⟩
  have hsome : ∃ e, findTableMatch specific_places (lowerStr q) = some e := by
    have h1 : ((specific_places.find?
        (fun e => e.2.any (fun kw2 => occurs kw2 (lowerStr q)))).isSome) = true :=
      List.find?_isSome.mpr hmatch
    exact Option.isSome_iff_exists.mp h1
  obtain ⟨e, he⟩ := hsome
  have he2 : specific_places.find? (fun e => e.2.any (fun kw2 => occurs kw2 (lowerStr q)))
      = some e := he
  have hpe0 := List.find?_some he2
  have hpe : (e.2.any fun kw2 => occurs kw2 (lowerStr q)) = true := hpe0
  have hmem : e ∈ specific_places := List.mem_of_find?_eq_some he2
  have hinfo : extract_location_info q =
      ⟨e.1, "specific".data, extractCount (lowerStr q), e.1 :: e.2⟩ := by
    simp only [extract_location_info, he]
  refine ⟨by rw [hinfo], ⟨e, hmem, by rw [hinfo], List.any_eq_true.mp hpe⟩, fun hu => ?_⟩
  obtain ⟨kw2, hkw2, hocc2⟩ := List.any_eq_true.mp hpe
  rw [hinfo]
  exact hu e hmem kw2 hkw2 hocc2

/-- C5, witness: the query Sajek in Rangpur please contains the
landmark keyword sajek (upper-cased in the query) and the division
keyword rangpur; the extracted intent is specific with location
sajek. -/
theorem claim_C5_witness :
    (extract_location_info "Sajek in Rangpur please".data).type = "specific".data
    ∧ (∃ e ∈ specific_places,
        (extract_location_info "Sajek in Rangpur please".data).location = e.1
        ∧ ∃ kw2 ∈ e.2, occurs kw2 (lowerStr "Sajek in Rangpur please".data) = true)
    ∧ ((∀ e ∈ specific_places, ∀ kw2 ∈ e.2,
          occurs kw2 (lowerStr "Sajek in Rangpur please".data) = true → e.1 = "sajek".data) →
        (extract_location_info "Sajek in Rangpur please".data).location = "sajek".data) :=
  claim_C5 "Sajek in Rangpur please".data "sajek".data ["sajek".data] "sajek".data
    (by decide) (by decide) (by decide)

/-- C6: under any general-type intent, a place whose lower-cased name
and description contain no famous keyword scores exactly 0 and its
presence or absence does not change the ranked output at all, even
when it has a long description and an image; a place with at least one
famous-keyword match scores exactly 30 plus 5 for a truthy description
longer than 50 characters plus 5 for a truthy image. -/
theorem claim_C6 (info : LocationInfo) (p : PDict) (hty : info.type = "general".data) :
    ((∀ kw ∈ famous_keywords, occurs kw (strFieldLower p nameKey) = false
        ∧ occurs kw (strFieldLower p descriptionKey) = false) →
      calculate_relevance_score p info = 0
      ∧ ∀ xs ys : List PDict,
          filter_and_rank_places (xs ++ p :: ys) info = filter_and_rank_places (xs ++ ys) info)
    ∧ ((∃ kw ∈ famous_keywords, occurs kw (strFieldLower p nameKey) = true
          ∨ occurs kw (strFieldLower p descriptionKey) = true) →
      calculate_relevance_score p info =
        30 + (if truthy (dictGet p descriptionKey) &&
                decide (50 < (strOrEmpty (dictGet p descriptionKey)).length) then 5 else 0)
           + (if truthy (dictGet p imageKey) then 5 else 0)) := by
  have h1 : ¬ (("general".data : Str) = "specific".data) := by decide
  have h2 : ¬ (("general".data : Str) = "division".data) := by decide
  constructor
  · intro hno
    have hnone : famous_keywords.find?
        (fun kw => occurs kw (strFieldLower p nameKey) || occurs kw (strFieldLower p descriptionKey))
          = none := by
      rw [List.find?_eq_none]
      intro kw hkw
      obtain ⟨ha, hb⟩ := hno kw hkw
      simp [ha, hb]
    have hzero : calculate_relevance_score p info = 0 := by
      simp [calculate_relevance_score, hty, h1, h2, hnone]
    refine ⟨hzero, fun xs ys => ?_⟩
    simp only [filter_and_rank_places, List.filterMap_append, List.filterMap_cons, hzero]
    norm_num
  · intro ⟨kw, hkw, hor⟩
    have hsome : ((famous_keywords.find?
        (fun kw => occurs kw (strFieldLower p nameKey)
          || occurs kw (strFieldLower p descriptionKey))).isSome) = true := by
      refine List.find?_isSome.mpr ⟨kw, hkw, ?_⟩
      rcases hor with ha | hb
      · simp [ha]
      · simp [hb]
    obtain ⟨fk, hfk⟩ := Option.isSome_iff_exists.mp hsome
    simp [calculate_relevance_score, hty, h1, h2, hfk]

/-- C6, witness: under the general bangladesh intent, the detailed and
imaged place Unnamed Village Pond scores 0 and is dropped, while the
equally detailed and imaged Sajek Valley scores 30 + 5 + 5. -/
theorem claim_C6_witness :
    (((∀ kw ∈ famous_keywords, occurs kw (strFieldLower pondPlace nameKey) = false
        ∧ occurs kw (strFieldLower pondPlace descriptionKey) = false) →
      calculate_relevance_score pondPlace genInfo = 0
      ∧ ∀ xs ys : List PDict,
          filter_and_rank_places (xs ++ pondPlace :: ys) genInfo
            = filter_and_rank_places (xs ++ ys) genInfo)
    ∧ ((∃ kw ∈ famous_keywords, occurs kw (strFieldLower pondPlace nameKey) = true
          ∨ occurs kw (strFieldLower pondPlace descriptionKey) = true) →
      calculate_relevance_score pondPlace genInfo =
        30 + (if truthy (dictGet pondPlace descriptionKey) &&
                decide (50 < (strOrEmpty (dictGet pondPlace descriptionKey)).length) then 5 else 0)
           + (if truthy (dictGet pondPlace imageKey) then 5 else 0)))
    ∧ calculate_relevance_score sajekPlace genInfo = 40 :=
  ⟨claim_C6 genInfo pondPlace (by decide), by decide⟩

/-- C7: under any unknown-type intent every place scores 0 and the
rank-filter returns the empty list. -/
theorem claim_C7 (info : LocationInfo) (places : List PDict)
    (h : info.type = "unknown".data) :
    (∀ p : PDict, calculate_relevance_score p info = 0)
    ∧ filter_and_rank_places places info = [] := by
  refine ⟨fun p => calculate_relevance_score_unknown info p h, ?_⟩
  have hnil : places.filterMap (fun place =>
      let score := calculate_relevance_score place info
      if 5 < score then some (dictSet place relevanceKey (.vnum score), score) else none) = [] := by
    rw [List.filterMap_eq_nil_iff]
    intro p hp
    simp [calculate_relevance_score_unknown info p h]
  simp [filter_and_rank_places, hnil, sortByScore]

/-- C7, witness: instantiated at an unknown intent for the query best
food nearby over a two-place collection. -/
theorem claim_C7_witness :
    (∀ p : PDict, calculate_relevance_score p unknownInfo = 0)
    ∧ filter_and_rank_places [sylPlaceA, sylPlaceC] unknownInfo = [] :=
  claim_C7 unknownInfo [sylPlaceA, sylPlaceC] (by decide)

/-- The specific-intent branch of the scorer is the keyword fold. -/
theorem score_specific (info : LocationInfo) (p : PDict) (h : info.type = "specific".data) :
    calculate_relevance_score p info =
      info.search_keywords.foldl (specificKeywordScore (strFieldLower p nameKey)
        (strFieldLower p descriptionKey) (strFieldLower p urlKey)
        (strFieldLower p divisionKey)) 0 := by
  simp [calculate_relevance_score, h]

/-- One specific-intent keyword step never decreases the score. -/
theorem sks_mono (pn pd pu pv : Str) (s : Nat) (kw : Str) :
    s ≤ specificKeywordScore pn pd pu pv s kw := by
  simp only [specificKeywordScore]
  split_ifs <;> omega

/-- An exact name match adds at least 50 in its keyword step. -/
theorem sks_exact (pn pd pu pv : Str) (s : Nat) (kw : Str) (h : lowerStr kw = pn) :
    s + 50 ≤ specificKeywordScore pn pd pu pv s kw := by
  simp [specificKeywordScore, h]
  split_ifs <;> omega

/-- A proper name containment adds at least 30 in its keyword step. -/
theorem sks_contains (pn pd pu pv : Str) (s : Nat) (kw : Str)
    (h1 : ¬ lowerStr kw = pn) (h2 : occurs (lowerStr kw) pn = true) :
    s + 30 ≤ specificKeywordScore pn pd pu pv s kw := by
  simp [specificKeywordScore, h1, h2]
  split_ifs <;> omega

/-- With no name, url or division occurrence, a keyword step adds at
most the 15 description points. -/
theorem sks_desc_only (pn pd pu pv : Str) (s : Nat) (kw : Str)
    (hn : occurs (lowerStr kw) pn = false) (hu : occurs (lowerStr kw) pu = false)
    (hv : occurs (lowerStr kw) pv = false) :
    specificKeywordScore pn pd pu pv s kw ≤ s + 15 := by
  have h1 : ¬ lowerStr kw = pn := by
    intro h
    rw [h] at hn
    rw [occurs_self pn] at hn
    exact Bool.true_eq_false.mp hn
  simp [specificKeywordScore, h1, hn, hu, hv]
  split_ifs <;> omega

/-- Lower bound for the keyword fold from per-keyword lower bounds. -/
theorem foldl_sks_ge (pn pd pu pv : Str) (lb : Str → Nat) :
    ∀ (kws : List Str) (s : Nat),
      (∀ kw ∈ kws, ∀ t : Nat, t + lb kw ≤ specificKeywordScore pn pd pu pv t kw) →
      s + (kws.map lb).sum ≤ kws.foldl (specificKeywordScore pn pd pu pv) s := by
  intro kws
  induction kws with
  | nil => intro s h; simp
  | cons k ks ih =>
    intro s h
    simp only [List.foldl_cons, List.map_cons, List.sum_cons]
    have h1 := h k (List.mem_cons_self k ks) s
    have h2 := ih (specificKeywordScore pn pd pu pv s k)
      (fun kw hkw t => h kw (List.mem_cons_of_mem k hkw) t)
    omega

/-- Upper bound for the keyword fold from per-keyword upper bounds. -/
theorem foldl_sks_le (pn pd pu pv : Str) (ub : Str → Nat) :
    ∀ (kws : List Str) (s : Nat),
      (∀ kw ∈ kws, ∀ t : Nat, specificKeywordScore pn pd pu pv t kw ≤ t + ub kw) →
      kws.foldl (specificKeywordScore pn pd pu pv) s ≤ s + (kws.map ub).sum := by
  intro kws
  induction kws with
  | nil => intro s h; simp
  | cons k ks ih =>
    intro s h
    simp only [List.foldl_cons, List.map_cons, List.sum_cons]
    have h1 := h k (List.mem_cons_self k ks) s
    have h2 := ih (specificKeywordScore pn pd pu pv s k)
      (fun kw hkw t => h kw (List.mem_cons_of_mem k hkw) t)
    omega

/-- C4, counterexample: under the intent extracted from the query
Cox-apostrophe-s Bazar, a place named exactly Cox-apostrophe-s Bazar
with no other field scores 130, not 50: the landmark name occurs twice
in search_keywords (it is prepended to its own keyword list) and the
keyword cox is additionally contained in the name, giving
50 + 30 + 50. -/
theorem claim_C4_counterexample :
    calculate_relevance_score coxTitlePlace coxIntent = 130 ∧ (130 : Nat) ≠ 50 :=
  ⟨by decide, by decide⟩

/-- C4, amended: under the intent extracted from the query
Cox-apostrophe-s Bazar, a place named exactly cox-apostrophe-s bazar
scores at least 130 (50 for each of the two exact-name keyword
occurrences plus 30 for the contained keyword cox) plus any
description, url and division bonuses, while a place with no intent
keyword in its name, url or division, merely mentioning the landmark
in its description, collects at most 15 per keyword, hence at most 75,
and therefore scores strictly less. -/
theorem claim_C4_amended (p r : PDict)
    (hp : strFieldLower p nameKey = coxName)
    (hr : ∀ kw ∈ coxIntent.search_keywords,
        occurs (lowerStr kw) (strFieldLower r nameKey) = false
        ∧ occurs (lowerStr kw) (strFieldLower r urlKey) = false
        ∧ occurs (lowerStr kw) (strFieldLower r divisionKey) = false) :
    130 ≤ calculate_relevance_score p coxIntent
    ∧ calculate_relevance_score r coxIntent ≤ 75
    ∧ calculate_relevance_score r coxIntent < calculate_relevance_score p coxIntent := by
  have hty : coxIntent.type = "specific".data := by decide
  have hkws : coxIntent.search_keywords =
      [coxName, "cox".data, "coxs bazar".data, coxName, "coxsbazar".data] := by decide
  have hlow : lowerStr coxName = coxName := by decide
  have hcoxne : ¬ lowerStr "cox".data = coxName := by decide
  have hcoxocc : occurs (lowerStr "cox".data) coxName = true := by decide
  have hscorep : 130 ≤ calculate_relevance_score p coxIntent := by
    rw [score_specific coxIntent p hty, hp, hkws]
    have hper : ∀ kw ∈ [coxName, "cox".data, "coxs bazar".data, coxName, "coxsbazar".data],
        ∀ t : Nat, t + coxLb kw ≤ specificKeywordScore coxName
          (strFieldLower p descriptionKey) (strFieldLower p urlKey)
          (strFieldLower p divisionKey) t kw := by
      intro kw hkw t
      fin_cases hkw
      · rw [show coxLb coxName = 50 from by decide]
        exact sks_exact _ _ _ _ _ _ hlow
      · rw [show coxLb "cox".data = 30 from by decide]
        exact sks_contains _ _ _ _ _ _ hcoxne hcoxocc
      · rw [show coxLb "coxs bazar".data = 0 from by decide]
        simpa using sks_mono coxName (strFieldLower p descriptionKey)
          (strFieldLower p urlKey) (strFieldLower p divisionKey) t "coxs bazar".data
      · rw [show coxLb coxName = 50 from by decide]
        exact sks_exact _ _ _ _ _ _ hlow
      · rw [show coxLb "coxsbazar".data = 0 from by decide]
        simpa using sks_mono coxName (strFieldLower p descriptionKey)
          (strFieldLower p urlKey) (strFieldLower p divisionKey) t "coxsbazar".data
    have H := foldl_sks_ge coxName (strFieldLower p descriptionKey) (strFieldLower p urlKey)
      (strFieldLower p divisionKey) coxLb
      [coxName, "cox".data, "coxs bazar".data, coxName, "coxsbazar".data] 0 hper
    have hsum : (([coxName, "cox".data, "coxs bazar".data, coxName,
        "coxsbazar".data].map coxLb).sum) = 130 := by decide
    rw [hsum] at H
    omega
  have hscorer : calculate_relevance_score r coxIntent ≤ 75 := by
    rw [score_specific coxIntent r hty, hkws]
    rw [hkws] at hr
    have hper : ∀ kw ∈ [coxName, "cox".data, "coxs bazar".data, coxName, "coxsbazar".data],
        ∀ t : Nat, specificKeywordScore (strFieldLower r nameKey)
          (strFieldLower r descriptionKey) (strFieldLower r urlKey)
          (strFieldLower r divisionKey) t kw ≤ t + fifteen kw := by
      intro kw hkw t
      obtain ⟨hn, hu, hv⟩ := hr kw hkw
      rw [show fifteen kw = 15 from rfl]
      exact sks_desc_only _ _ _ _ _ _ hn hu hv
    have H := foldl_sks_le (strFieldLower r nameKey) (strFieldLower r descriptionKey)
      (strFieldLower r urlKey) (strFieldLower r divisionKey) fifteen
      [coxName, "cox".data, "coxs bazar".data, coxName, "coxsbazar".data] 0 hper
    have hsum : (([coxName, "cox".data, "coxs bazar".data, coxName,
        "coxsbazar".data].map fifteen).sum) = 75 := by decide
    rw [hsum] at H
    omega
  exact ⟨hscorep, hscorer, by omega⟩

/-- C4, amended, witness: the exactly-named place scores at least 130
and the description-only place at most 75, strictly less. -/
theorem claim_C4_amended_witness :
    130 ≤ calculate_relevance_score coxTitlePlace coxIntent
    ∧ calculate_relevance_score coxMentionPlace coxIntent ≤ 75
    ∧ calculate_relevance_score coxMentionPlace coxIntent
        < calculate_relevance_score coxTitlePlace coxIntent :=
  claim_C4_amended coxTitlePlace coxMentionPlace (by decide) (by decide)

/-- Setting a key and popping it again leaves exactly the record with
the key removed, whether or not the key was present before. -/
theorem dictPop_map_update (d : PDict) (k : Str) (v : Val) :
    dictPop (d.map (fun kv => if kv.1 = k then (k, v) else kv)) k = dictPop d k := by
  induction d with
  | nil => rfl
  | cons kv rest ih =>
    by_cases hk : kv.1 = k
    · simp only [List.map_cons, if_pos hk, dictPop, List.filter_cons]
      simp only [dictPop] at ih
      simp [hk, ih]
    · simp only [List.map_cons, if_neg hk, dictPop, List.filter_cons]
      simp only [dictPop] at ih
      simp [hk, ih]

theorem pop_set (d : PDict) (k : Str) (v : Val) :
    dictPop (dictSet d k v) k = dictPop d k := by
  unfold dictSet
  split
  · exact dictPop_map_update d k v
  · unfold dictPop
    rw [List.filter_append]
    simp

theorem le_fst_of_mem_enumFrom {α : Type} :
    ∀ (l : List α) (n : Nat) (x : Nat × α), x ∈ List.enumFrom n l → n ≤ x.1 := by
  intro l
  induction l with
  | nil => intro n x h; simp [List.enumFrom] at h
  | cons a t ih =>
    intro n x h
    rw [List.enumFrom] at h
    rcases List.mem_cons.mp h with h1 | h2
    · subst h1; exact Nat.le_refl n
    · exact Nat.le_trans (Nat.le_succ n) (ih (n + 1) x h2)

theorem pairwise_fst_lt_enumFrom {α : Type} :
    ∀ (l : List α) (n : Nat), (List.enumFrom n l).Pairwise (fun a b => a.1 < b.1) := by
  intro l
  induction l with
  | nil => intro n; simp [List.enumFrom]
  | cons a t ih =>
    intro n
    rw [List.enumFrom]
    refine List.Pairwise.cons (fun y hy => ?_) (ih (n + 1))
    have := le_fst_of_mem_enumFrom t (n + 1) y hy
    omega

/-- A conditional filterMap is the same as filtering the enumerated
list and mapping, forgetting the indices. -/
theorem filterMap_if_eq_enumFrom {α β : Type} (p : α → Prop) [DecidablePred p] (g : α → β) :
    ∀ (l : List α) (n : Nat),
      (l.filterMap fun a => if p a then some (g a) else none) =
        ((List.enumFrom n l).filter fun e => decide (p e.2)).map fun e => g e.2 := by
  intro l
  induction l with
  | nil => intro n; rfl
  | cons a t ih =>
    intro n
    rw [List.enumFrom, List.filterMap_cons, List.filter_cons]
    by_cases hp : p a
    · simp [hp, ih (n + 1)]
    · simp [hp, ih (n + 1)]

theorem mem_insertRanked (info : LocationInfo) (x z : Nat × PDict) :
    ∀ (l : List (Nat × PDict)), z ∈ insertRanked info x l → z = x ∨ z ∈ l := by
  intro l
  induction l with
  | nil => intro h; simp [insertRanked] at h; exact Or.inl h
  | cons y ys ih =>
    intro h
    rw [insertRanked] at h
    split at h
    · rcases List.mem_cons.mp h with h1 | h2
      · exact Or.inl h1
      · exact Or.inr h2
    · rcases List.mem_cons.mp h with h1 | h2
      · exact Or.inr (List.mem_cons.mpr (Or.inl h1))
      · rcases ih h2 with h3 | h4
        · exact Or.inl h3
        · exact Or.inr (List.mem_cons.mpr (Or.inr h4))

theorem mem_sortRanked (info : LocationInfo) (z : Nat × PDict) :
    ∀ (l : List (Nat × PDict)), z ∈ sortRanked info l → z ∈ l := by
  intro l
  induction l with
  | nil => intro h; simp [sortRanked] at h
  | cons x xs ih =>
    intro h
    rw [sortRanked] at h
    rcases mem_insertRanked info x z _ h with h1 | h2
    · exact h1 ▸ List.mem_cons_self x xs
    · exact List.mem_cons.mpr (Or.inr (ih h2))

/-- On a list whose indices all exceed the inserted index, the
specification-side insertion (score descending, ties by index) maps to
the implementation-side stable insertion (score descending, stopping
at the first score less than or equal). -/
theorem map_insertRanked {α : Type} (info : LocationInfo) (f : Nat × PDict → α × Nat)
    (hf : ∀ e, (f e).2 = calculate_relevance_score e.2 info) (x : Nat × PDict) :
    ∀ (l : List (Nat × PDict)), (∀ y ∈ l, x.1 < y.1) →
      (insertRanked info x l).map f = insertByScore (f x) (l.map f) := by
  intro l
  induction l with
  | nil => intro _; rfl
  | cons y ys ih =>
    intro hidx
    have hxy : x.1 < y.1 := hidx y (List.mem_cons_self y ys)
    rw [insertRanked, List.map_cons]
    simp only [insertByScore]
    by_cases hc : calculate_relevance_score y.2 info ≤ calculate_relevance_score x.2 info
    · have hcond : calculate_relevance_score y.2 info < calculate_relevance_score x.2 info ∨
          (calculate_relevance_score y.2 info = calculate_relevance_score x.2 info
            ∧ x.1 < y.1) := by
        rcases Nat.eq_or_lt_of_le hc with h1 | h2
        · exact Or.inr ⟨h1, hxy⟩
        · exact Or.inl h2
      have hc2 : (f y).2 ≤ (f x).2 := by rw [hf x, hf y]; exact hc
      rw [if_pos hcond, if_pos hc2]
      simp
    · have hcond : ¬ (calculate_relevance_score y.2 info < calculate_relevance_score x.2 info ∨
          (calculate_relevance_score y.2 info = calculate_relevance_score x.2 info
            ∧ x.1 < y.1)) := by
        intro h
        rcases h with h1 | h2
        · omega
        · omega
      have hc2 : ¬ (f y).2 ≤ (f x).2 := by rw [hf x, hf y]; exact hc
      rw [if_neg hcond, if_neg hc2, List.map_cons,
        ih (fun z hz => hidx z (List.mem_cons_of_mem y hz))]

/-- On an index-increasing list the specification-side sort maps to
the implementation-side stable sort by score. -/
theorem map_sortRanked {α : Type} (info : LocationInfo) (f : Nat × PDict → α × Nat)
    (hf : ∀ e, (f e).2 = calculate_relevance_score e.2 info) :
    ∀ (l : List (Nat × PDict)), l.Pairwise (fun a b => a.1 < b.1) →
      (sortRanked info l).map f = sortByScore (l.map f) := by
  intro l
  induction l with
  | nil => intro _; rfl
  | cons x xs ih =>
    intro hpw
    rw [List.pairwise_cons] at hpw
    rw [sortRanked, List.map_cons]
    rw [map_insertRanked info f hf x (sortRanked info xs)
      (fun y hy => hpw.1 y (mem_sortRanked info y xs hy))]
    rw [ih hpw.2]
    rfl

/-- C1: the rank-filter returns exactly the places scoring strictly
more than 5, in descending score order with ties broken by original
position (stable), with the transient score key removed from every
returned record — stated as equality with the specification-side
ranking built from the enumerated, filtered, lexicographically sorted
and stripped place list. -/
theorem claim_C1 (places : List PDict) (info : LocationInfo) :
    filter_and_rank_places places info = rankSpec places info := by
  have hstep : places.filterMap (fun place =>
      let score := calculate_relevance_score place info
      if 5 < score then some (dictSet place relevanceKey (.vnum score), score) else none) =
      (keptWithIdx places info).map (fun e =>
        (dictSet e.2 relevanceKey (.vnum (calculate_relevance_score e.2 info)),
          calculate_relevance_score e.2 info)) := by
    rw [keptWithIdx, List.enum_eq_enumFrom]
    exact filterMap_if_eq_enumFrom (fun place => 5 < calculate_relevance_score place info)
      (fun place => (dictSet place relevanceKey (.vnum (calculate_relevance_score place info)),
        calculate_relevance_score place info)) places 0
  have hpw : (keptWithIdx places info).Pairwise (fun a b => a.1 < b.1) := by
    rw [keptWithIdx, List.enum_eq_enumFrom]
    exact List.Pairwise.sublist (List.filter_sublist _) (pairwise_fst_lt_enumFrom places 0)
  simp only [filter_and_rank_places, rankSpec]
  rw [hstep]
  rw [← map_sortRanked info (fun e =>
    (dictSet e.2 relevanceKey (.vnum (calculate_relevance_score e.2 info)),
      calculate_relevance_score e.2 info)) (fun e => rfl) (keptWithIdx places info) hpw]
  rw [List.map_map]
  refine List.map_congr_left (fun e _ => ?_)
  exact pop_set e.2 relevanceKey (.vnum (calculate_relevance_score e.2 info))

/-- C1, witness: instantiated at a three-place collection under the
sylhet division intent. -/
theorem claim_C1_witness :
    filter_and_rank_places [sylPlaceC, sylPlaceA, pondPlace] sylhetInfo
      = rankSpec [sylPlaceC, sylPlaceA, pondPlace] sylhetInfo :=
  claim_C1 [sylPlaceC, sylPlaceA, pondPlace] sylhetInfo

/-- If the external embedding service errors on any batch of the run,
the sequential batch loop errors. -/
theorem embedAll_error_of_mem (embed : List Str → Except EmbErr (List Vec)) :
    ∀ (bs : List (List Str)), (∃ b ∈ bs, ∃ e, embed b = .error e) →
      ∃ e, embedAll embed bs = .error e := by
  intro bs
  induction bs with
  | nil => intro h; obtain ⟨b, hb, _⟩ := h; simp at hb
  | cons b rest ih =>
    intro h
    obtain ⟨b0, hb0, e0, he0⟩ := h
    rw [embedAll]
    cases hcb : embed b with
    | error e => exact ⟨e, rfl⟩
    | ok vs =>
      rcases List.mem_cons.mp hb0 with h1 | h2
      · subst h1; rw [hcb] at he0; cases he0
      · obtain ⟨e1, he1⟩ := ih ⟨b0, h2, e0, he0⟩
        rw [he1]
        exact ⟨e1, rfl⟩

/-- C8: if the external embedding call errors for any batch of the
build, the whole build fails and nothing at all is written: neither
the index file nor the place-mapping file. -/
theorem claim_C8 (places : List PDict) (embed : List Str → Except EmbErr (List Vec))
    (h : ∃ b ∈ batches10 (embedTexts places), ∃ e, embed b = .error e) :
    ∃ e, create_embeddings places embed = (.error e, []) := by
  obtain ⟨e, he⟩ := embedAll_error_of_mem embed (batches10 (embedTexts places)) h
  refine ⟨e, ?_⟩
  unfold create_embeddings
  rw [he]

/-- C8, witness: a two-place collection with a failing embedding
service produces an error and an empty list of file writes. -/
theorem claim_C8_witness :
    ∃ e, create_embeddings [alphaPlace, betaPlace] badEmbed = (.error e, []) :=
  claim_C8 [alphaPlace, betaPlace] badEmbed
    ⟨[placeText betaPlace], by decide, .serviceError, rfl⟩

/-- C2: the build embeds one text per place with a truthy description
(here only the second place), so index position 0 holds the embedding
of the second place; but the build persists the FULL place list as the
mapping file, whose position 0 is the first place — the positional
1:1 join between index and mapping is broken as soon as any place
lacks a description. -/
theorem claim_C2_code_bug :
    embedTexts [alphaPlace, betaPlace] = [placeText betaPlace]
    ∧ create_embeddings [alphaPlace, betaPlace] okEmbed
        = (.ok (), [.indexFile [[0]], .mappingFile [alphaPlace, betaPlace]])
    ∧ [alphaPlace, betaPlace][0]? ≠ some betaPlace :=
  ⟨by decide, rfl, by decide⟩

/-- C9, counterexample: the keyword-path response composer returns the
text-generation output as is; with a generator returning text with
surrounding whitespace, the composer result is NOT stripped. -/
theorem claim_C9_counterexample :
    generate_friendly_response "hi".data [] sylhetInfo (fun _ => " ok ".data) = " ok ".data
    ∧ pyStrip " ok ".data ≠ " ok ".data :=
  ⟨rfl, by decide⟩

/-- C9, amended: the composer builds its context from at most the top
10 places with each description truncated to its first 200 characters
(plus an ellipsis marker when truncated), and returns the external
text-generation output unchanged — it is the vector-path composer in
app/query.py, not this one, that strips whitespace. -/
theorem claim_C9_amended (q : Str) (spots : List PDict) (info : LocationInfo)
    (g : Str → Str) :
    generate_friendly_response q spots info g
        = g (friendlyPrompt q (titleStr info.location) (spotsContext spots))
    ∧ spotsContext spots = spotsContext (spots.take 10)
    ∧ ∀ d : Str, truncDesc d = d.take 200 ++ (if 200 < d.length then "...".data else []) := by
  refine ⟨rfl, ?_, ?_⟩
  · unfold spotsContext
    simp [List.take_take]
  · intro d
    unfold truncDesc
    by_cases h : 200 < d.length
    · rw [if_pos h, if_pos h]
    · rw [if_neg h, if_neg h, List.take_of_length_le (by omega), List.append_nil]

/-- C9, amended, witness: instantiated at a concrete query, spot list,
intent and generator. -/
theorem claim_C9_amended_witness :
    generate_friendly_response "hi".data [betaPlace] sylhetInfo (fun p => p)
        = friendlyPrompt "hi".data (titleStr sylhetInfo.location) (spotsContext [betaPlace])
    ∧ spotsContext [betaPlace] = spotsContext ([betaPlace].take 10)
    ∧ ∀ d : Str, truncDesc d = d.take 200 ++ (if 200 < d.length then "...".data else []) :=
  claim_C9_amended "hi".data [betaPlace] sylhetInfo (fun p => p)

/-- Phase 1 of the heap-model rank-filter only appends fresh cells to
the heap, and every retained address is either inherited from the
accumulator or at least the initial heap length. -/
theorem rankScorePhase_spec (info : LocationInfo) :
    ∀ (ids : List Nat) (h : List PDict) (acc : List (Nat × Nat)),
      (∃ ext, (rankScorePhase info ids h acc).1 = h ++ ext)
      ∧ ∀ p ∈ (rankScorePhase info ids h acc).2, p ∈ acc ∨ h.length ≤ p.1 := by
  intro ids
  induction ids with
  | nil =>
    intro h acc
    exact ⟨⟨[], by simp [rankScorePhase]⟩,
      fun p hp => Or.inl (by simpa [rankScorePhase] using hp)⟩
  | cons i rest ih =>
    intro h acc
    simp only [rankScorePhase]
    by_cases hsc : 5 < calculate_relevance_score (heapGet h i) info
    · rw [if_pos hsc]
      obtain ⟨⟨ext, hext⟩, hacc⟩ := ih
        (h ++ [dictSet (heapGet h i) relevanceKey
          (.vnum (calculate_relevance_score (heapGet h i) info))])
        (acc ++ [(h.length, calculate_relevance_score (heapGet h i) info)])
      constructor
      · refine ⟨[dictSet (heapGet h i) relevanceKey
          (.vnum (calculate_relevance_score (heapGet h i) info))] ++ ext, ?_⟩
        rw [hext, List.append_assoc]
      · intro p hp
        rcases hacc p hp with hin | hge
        · rcases List.mem_append.mp hin with h1 | h2
          · exact Or.inl h1
          · right
            have : p = (h.length, calculate_relevance_score (heapGet h i) info) := by
              simpa using h2
            rw [this]
        · right
          rw [List.length_append] at hge
          omega
    · rw [if_neg hsc]
      exact ih h acc

/-- The strip phase only touches addresses named in its pair list, so
every lower address keeps its cell. -/
theorem rankStripPhase_prefix :
    ∀ (pairs : List (Nat × Nat)) (h : List PDict) (n : Nat),
      (∀ p ∈ pairs, n ≤ p.1) → ∀ i, i < n → (rankStripPhase pairs h)[i]? = h[i]? := by
  intro pairs
  induction pairs with
  | nil => intro h n _ i _; rfl
  | cons p rest ih =>
    intro h n hp i hi
    obtain ⟨i0, s⟩ := p
    rw [rankStripPhase]
    rw [ih (h.set i0 (dictPop (heapGet h i0) relevanceKey)) n
      (fun q hq => hp q (List.mem_cons_of_mem _ hq)) i hi]
    have hne : i0 ≠ i := by
      have := hp (i0, s) (List.mem_cons_self _ _)
      simp at this
      omega
    exact List.getElem?_set_ne hne

theorem mem_insertByScore {α : Type} (x z : α × Nat) :
    ∀ (l : List (α × Nat)), z ∈ insertByScore x l → z = x ∨ z ∈ l := by
  intro l
  induction l with
  | nil => intro h; simp [insertByScore] at h; exact Or.inl h
  | cons y ys ih =>
    intro h
    rw [insertByScore] at h
    split at h
    · rcases List.mem_cons.mp h with h1 | h2
      · exact Or.inl h1
      · exact Or.inr h2
    · rcases List.mem_cons.mp h with h1 | h2
      · exact Or.inr (List.mem_cons.mpr (Or.inl h1))
      · rcases ih h2 with h3 | h4
        · exact Or.inl h3
        · exact Or.inr (List.mem_cons.mpr (Or.inr h4))

theorem mem_sortByScore {α : Type} (z : α × Nat) :
    ∀ (l : List (α × Nat)), z ∈ sortByScore l → z ∈ l := by
  intro l
  induction l with
  | nil => intro h; simp [sortByScore] at h
  | cons x xs ih =>
    intro h
    rw [sortByScore] at h
    rcases mem_insertByScore x z _ h with h1 | h2
    · exact h1 ▸ List.mem_cons_self x xs
    · exact List.mem_cons.mpr (Or.inr (ih h2))

/-- C10: the heap-model rank-filter never mutates any input record:
every cell addressed by the input id list is unchanged in the final
heap, and every returned address is a freshly allocated copy, disjoint
from the input addresses. -/
theorem claim_C10 (h : List PDict) (ids : List Nat) (info : LocationInfo)
    (hv : ∀ i ∈ ids, i < h.length) :
    (∀ i ∈ ids, (filter_and_rank_places_heap h ids info).1[i]? = h[i]?)
    ∧ (∀ j ∈ (filter_and_rank_places_heap h ids info).2, h.length ≤ j ∧ j ∉ ids) := by
  obtain ⟨⟨ext, hext⟩, hacc⟩ := rankScorePhase_spec info ids h []
  have hall : ∀ p ∈ sortByScore (rankScorePhase info ids h []).2, h.length ≤ p.1 := by
    intro p hp
    rcases hacc p (mem_sortByScore p _ hp) with hin | hge
    · simp at hin
    · exact hge
  constructor
  · intro i hi
    have hstrip := rankStripPhase_prefix (sortByScore (rankScorePhase info ids h []).2)
      (rankScorePhase info ids h []).1 h.length hall i (hv i hi)
    simp only [filter_and_rank_places_heap]
    rw [hstrip, hext, List.getElem?_append_left (hv i hi)]
  · intro j hj
    simp only [filter_and_rank_places_heap] at hj
    obtain ⟨p, hp, rfl⟩ := List.mem_map.mp hj
    have hge := hall p hp
    exact ⟨hge, fun hin => by have := hv p.1 hin; omega⟩

/-- C10, witness: on a two-cell heap with both cells ranked, the final
heap keeps both input cells intact and the returned addresses are the
fresh copies. -/
theorem claim_C10_witness :
    (∀ i ∈ [0, 1], (filter_and_rank_places_heap [sylPlaceC, sylPlaceA] [0, 1] sylhetInfo).1[i]?
        = [sylPlaceC, sylPlaceA][i]?)
    ∧ (∀ j ∈ (filter_and_rank_places_heap [sylPlaceC, sylPlaceA] [0, 1] sylhetInfo).2,
        [sylPlaceC, sylPlaceA].length ≤ j ∧ j ∉ [0, 1]) :=
  claim_C10 [sylPlaceC, sylPlaceA] [0, 1] sylhetInfo (by decide)

end TourGuide
